import Mathlib

/-!
Verification of the coop word-game session engine (src/coop.rs,
src/clientcoop.rs).  The Rust data types and methods are embedded as
executable Lean definitions: the `HashMap<String, Guesser>` word map is
modelled as an association list with replace-on-insert semantics, the
mutable methods become functions returning the updated state, and the
indexing methods that can panic on an out-of-range player index return
`Option` (with `none` standing for the panic).
-/

namespace SLServer

/-- Embeds `enum Guesser` from src/coop.rs. -/
inductive Guesser where
  | Player : Nat → Guesser
  | NoOne : Guesser
  | Gaveup : Guesser
deriving DecidableEq

/-- Embeds `struct CoopPlayer<T>` from src/coop.rs: a display name, an
optional send channel (none once the player quit) and the give-up flag. -/
structure CoopPlayer (T : Type) where
  name : String
  send : Option T
  gaveup : Bool
deriving DecidableEq

variable {T : Type}

/-- Embeds `CoopPlayer::new`. -/
def CoopPlayer.new (name : String) (send : T) : CoopPlayer T :=
  ⟨name, some send, false⟩

/-- Embeds `CoopPlayer::did_quit`. -/
def CoopPlayer.did_quit (p : CoopPlayer T) : Bool := p.send.isNone

/-- The word map: an association list standing for
`HashMap<String, Guesser>`.  Lookup finds the first matching key. -/
def lookupWord : List (String × Guesser) → String → Option Guesser
  | [], _ => none
  | (k, v) :: rest, w => if k = w then some v else lookupWord rest w

/-- Replaces the value stored at an existing key (first occurrence). -/
def updateWord : List (String × Guesser) → String → Guesser → List (String × Guesser)
  | [], _, _ => []
  | (k, v) :: rest, w, g =>
      if k = w then (k, g) :: rest else (k, v) :: updateWord rest w g

/-- `HashMap::insert` semantics: replace the value when the key is
present, otherwise add a new entry. -/
def insertWord (m : List (String × Guesser)) (w : String) (g : Guesser) :
    List (String × Guesser) :=
  if (lookupWord m w).isSome then updateWord m w g else m ++ [(w, g)]

/-- Embeds `struct CoopGame<T>` from src/coop.rs. -/
structure CoopGame (T : Type) where
  players : List (CoopPlayer T)
  words : List (String × Guesser)
deriving DecidableEq

/-- Embeds `CoopGame::new`. -/
def CoopGame.new (first_player : CoopPlayer T) (words : List (String × Guesser)) :
    CoopGame T :=
  ⟨[first_player], words⟩

/-- Embeds `enum JoinResult<T>` from src/coop.rs. -/
inductive JoinResult (T : Type) where
  | Ok : Nat → JoinResult T
  | Taken : T → JoinResult T
deriving DecidableEq

/-- Embeds `enum QuitResult` from src/coop.rs. -/
inductive QuitResult where
  | AllGiveup : QuitResult
  | AllQuit : QuitResult
deriving DecidableEq

/-- Embeds the roster scan of `CoopGame::try_join`: walk the players in
order looking for a matching name; a quit player is reinstated in place
(their send channel is set, nothing else changes), a connected player
yields `Taken`, and `none` means no player has this name. -/
def tryJoinScan (nm : String) (send : T) :
    List (CoopPlayer T) → Nat → Option (JoinResult T × List (CoopPlayer T))
  | [], _ => none
  | p :: rest, n =>
      if p.name = nm then
        if p.did_quit then
          some (JoinResult.Ok n, { p with send := some send } :: rest)
        else
          some (JoinResult.Taken send, p :: rest)
      else
        match tryJoinScan nm send rest (n + 1) with
        | some (r, rest2) => some (r, p :: rest2)
        | none => none

/-- Embeds `CoopGame::try_join`: reinstate or reject via the scan,
otherwise append a brand-new player and return its index. -/
def CoopGame.try_join (g : CoopGame T) (nm : String) (send : T) :
    JoinResult T × CoopGame T :=
  match tryJoinScan nm send g.players 0 with
  | some (r, ps) => (r, { g with players := ps })
  | none =>
      (JoinResult.Ok g.players.length,
       { g with players := g.players ++ [CoopPlayer.new nm send] })

/-- Embeds `CoopGame::attempt`: succeed exactly when the word is present
and still unguessed (`Guesser::NoOne`), replacing it by
`Guesser::Player player_num`; in every other case the state is
untouched. -/
def CoopGame.attempt (g : CoopGame T) (player_num : Nat) (word : String) :
    Bool × CoopGame T :=
  match lookupWord g.words word with
  | some Guesser.NoOne =>
      (true, { g with words := updateWord g.words word (Guesser.Player player_num) })
  | _ => (false, g)

/-- Embeds `CoopGame::allgiveup` on the word map: every entry that is
still `Guesser::NoOne` becomes `Guesser::Gaveup`. -/
def allgiveupWords (m : List (String × Guesser)) : List (String × Guesser) :=
  m.map (fun kv => if kv.2 = Guesser.NoOne then (kv.1, Guesser.Gaveup) else kv)

/-- Embeds `CoopGame::allgiveup`. -/
def CoopGame.allgiveup (g : CoopGame T) : CoopGame T :=
  { g with words := allgiveupWords g.words }

/-- Embeds the roster loop of `CoopGame::player_quit`: starting from
`AllQuit`, a connected player who did not give up aborts with `none`
(the `Continuing` outcome), a connected player who gave up switches the
running result to `AllGiveup`. -/
def quitScan : List (CoopPlayer T) → QuitResult → Option QuitResult
  | [], result => some result
  | p :: rest, result =>
      if p.did_quit then quitScan rest result
      else if p.gaveup then quitScan rest QuitResult.AllGiveup
      else none

/-- Embeds `CoopGame::player_quit`.  The Rust code indexes
`self.players[player_num]`, which panics out of range; that panic is the
`none` result here.  Otherwise: clear the player's channel and give-up
flag, scan the roster, and run `allgiveup` exactly when the scan ends in
`AllGiveup`. -/
def CoopGame.player_quit (g : CoopGame T) (player_num : Nat) :
    Option (Option QuitResult × CoopGame T) :=
  if h : player_num < g.players.length then
    match quitScan
        (g.players.set player_num ⟨(g.players.get ⟨player_num, h⟩).name, none, false⟩)
        QuitResult.AllQuit with
    | none =>
        some (none,
          ⟨g.players.set player_num ⟨(g.players.get ⟨player_num, h⟩).name, none, false⟩,
           g.words⟩)
    | some QuitResult.AllGiveup =>
        some (some QuitResult.AllGiveup,
          ⟨g.players.set player_num ⟨(g.players.get ⟨player_num, h⟩).name, none, false⟩,
           allgiveupWords g.words⟩)
    | some QuitResult.AllQuit =>
        some (some QuitResult.AllQuit,
          ⟨g.players.set player_num ⟨(g.players.get ⟨player_num, h⟩).name, none, false⟩,
           g.words⟩)
  else none

/-- Embeds `CoopGame::player_giveup` (panic on a bad index is `none`):
set the flag, then if every player has given up or quit run `allgiveup`
and report `true`. -/
def CoopGame.player_giveup (g : CoopGame T) (player_num : Nat) :
    Option (Bool × CoopGame T) :=
  if h : player_num < g.players.length then
    if (g.players.set player_num
          ⟨(g.players.get ⟨player_num, h⟩).name, (g.players.get ⟨player_num, h⟩).send,
           true⟩).all (fun q => q.gaveup || q.did_quit) then
      some (true,
        ⟨g.players.set player_num
           ⟨(g.players.get ⟨player_num, h⟩).name, (g.players.get ⟨player_num, h⟩).send,
            true⟩,
         allgiveupWords g.words⟩)
    else
      some (false,
        ⟨g.players.set player_num
           ⟨(g.players.get ⟨player_num, h⟩).name, (g.players.get ⟨player_num, h⟩).send,
            true⟩,
         g.words⟩)
  else none

/-- Embeds `CoopGame::player_ungiveup` (panic on a bad index is `none`). -/
def CoopGame.player_ungiveup (g : CoopGame T) (player_num : Nat) :
    Option (CoopGame T) :=
  if h : player_num < g.players.length then
    some ⟨g.players.set player_num
            ⟨(g.players.get ⟨player_num, h⟩).name, (g.players.get ⟨player_num, h⟩).send,
             false⟩,
          g.words⟩
  else none

/-! ## Host-side word-list handling (src/clientcoop.rs, host_coop) -/

/-- True for the character class denoted by a lowercase-letter range in
the host word pattern. -/
def isLowerAZ (c : Char) : Bool := 'a' ≤ c && c ≤ 'z'

/-- Embeds the unanchored `Regex::is_match` of the host word pattern
(three to six lowercase letters, then an optional trailing underscore).
An unanchored search with this pattern succeeds exactly when some
position of the string starts at least three consecutive lowercase
letters: the three-letter lower bound is the only constraint a substring
search can fail, since the optional underscore may match empty. -/
def wordRegexMatch : List Char → Bool
  | a :: b :: c :: rest =>
      (isLowerAZ a && isLowerAZ b && isLowerAZ c) || wordRegexMatch (b :: c :: rest)
  | _ => false

/-- Embeds the body of the word loop of `host_coop`: a token failing the
regex search panics (`none`); a token whose last byte is an underscore
is inserted without that byte as `Guesser::Player 0`; any other token is
inserted as `Guesser::NoOne`. -/
def hostProcessWord (words : List (String × Guesser)) (w : List Char) :
    Option (List (String × Guesser)) :=
  if wordRegexMatch w then
    if w.getLast? = some '_' then
      some (insertWord words (String.mk w.dropLast) (Guesser.Player 0))
    else
      some (insertWord words (String.mk w) Guesser.NoOne)
  else none

/-- Runs `hostProcessWord` over a token list, propagating the panic. -/
def hostProcessWords : List (List Char) → List (String × Guesser) →
    Option (List (String × Guesser))
  | [], words => some words
  | w :: rest, words =>
      match hostProcessWord words w with
      | some words2 => hostProcessWords rest words2
      | none => none

/-- Embeds `slice::split` on the space byte as used by `host_coop`:
separators delimit the tokens, so n separators yield n+1 (possibly
empty) tokens. -/
def splitSpaces : List Char → List (List Char)
  | [] => [[]]
  | c :: rest =>
      if c = ' ' then [] :: splitSpaces rest
      else
        match splitSpaces rest with
        | t :: ts => (c :: t) :: ts
        | [] => [[c]]

/-- Embeds the word-map construction of `host_coop`: split the inbound
message on spaces, take the first 75 tokens, process each. -/
def hostFromTokens (ts : List (List Char)) : Option (List (String × Guesser)) :=
  hostProcessWords (ts.take 75) []

/-- The word map `host_coop` builds from the raw message bytes. -/
def hostCoopWords (msg : List Char) : Option (List (String × Guesser)) :=
  hostFromTokens (splitSpaces msg)

/-- The token grammar as the specification states it: the whole token is
three to six lowercase letters optionally followed by one trailing
underscore marker.  Written from the spec's words, to be compared with
the code's unanchored regex search. -/
def specTokenOk (s : List Char) : Bool :=
  let core := if s.getLast? = some '_' then s.dropLast else s
  3 ≤ core.length && core.length ≤ 6 && core.all isLowerAZ

/-! ## Broadcast fan-out (src/clientcoop.rs) -/

/-- Embeds the recipient selection of `announce_msg`: enumerate the
players starting at the given index; a player receives the message when
their index differs from `except` and their send channel is present. -/
def announceRecipAux (except : Option Nat) :
    List (CoopPlayer T) → Nat → List Nat
  | [], _ => []
  | p :: rest, n =>
      if some n ≠ except then
        (if p.send.isSome then n :: announceRecipAux except rest (n + 1)
         else announceRecipAux except rest (n + 1))
      else announceRecipAux except rest (n + 1)

/-- The indices `announce_msg` sends to. -/
def announceRecip (ps : List (CoopPlayer T)) (except : Option Nat) : List Nat :=
  announceRecipAux except ps 0

/-- Embeds the broadcasts of the `:attempt` branch of `game_loop` as the
list of recipient sets, in order: on success one announcement on the
mutated game excluding the sender, on failure none. -/
def attemptBroadcasts (g : CoopGame T) (pnum : Nat) (w : String) :
    List (List Nat) :=
  match g.attempt pnum w with
  | (true, g2) => [announceRecip g2.players (some pnum)]
  | (false, _) => []

/-- Embeds the broadcasts of the `:giveup` branch of `game_loop`: first
the give-up announcement excluding the sender (sent before the state
change), then, when `player_giveup` reports all-gave-up, the
`on_allgiveup` announcement with no exclusion.  `none` is the panic of
a bad index. -/
def giveupBroadcasts (g : CoopGame T) (pnum : Nat) : Option (List (List Nat)) :=
  match g.player_giveup pnum with
  | some (true, g2) =>
      some [announceRecip g.players (some pnum), announceRecip g2.players none]
  | some (false, _) => some [announceRecip g.players (some pnum)]
  | none => none

/-- Embeds the broadcasts of the `:ungiveup` branch of `game_loop`. -/
def ungiveupBroadcasts (g : CoopGame T) (pnum : Nat) : Option (List (List Nat)) :=
  match g.player_ungiveup pnum with
  | some _ => some [announceRecip g.players (some pnum)]
  | none => none

/-- Embeds the broadcast of the `:chat` branch of `game_loop`. -/
def chatBroadcasts (g : CoopGame T) (pnum : Nat) : List (List Nat) :=
  [announceRecip g.players (some pnum)]

/-- Embeds the broadcast of the join announcement in `on_playerjoin`. -/
def joinBroadcasts (g : CoopGame T) (pnum : Nat) : List (List Nat) :=
  [announceRecip g.players (some pnum)]

/-- Embeds the broadcasts of `on_disconnect`: the quit announcement
excluding the leaver (sent before `player_quit` runs), then, on the
`AllGiveup` outcome, the `on_allgiveup` announcement with no exclusion
on the mutated game. -/
def disconnectBroadcasts (g : CoopGame T) (pnum : Nat) : Option (List (List Nat)) :=
  match g.player_quit pnum with
  | some (some QuitResult.AllGiveup, g2) =>
      some [announceRecip g.players (some pnum), announceRecip g2.players none]
  | some _ => some [announceRecip g.players (some pnum)]
  | none => none

/-! ## Word-map lemmas -/

theorem lookupWord_updateWord_self (m : List (String × Guesser)) (w : String)
    (g v : Guesser) (h : lookupWord m w = some v) :
    lookupWord (updateWord m w g) w = some g := by
  induction m with
  | nil => simp [lookupWord] at h
  | cons kv rest ih =>
      obtain ⟨k, v0⟩ := kv
      by_cases hk : k = w
      · simp [lookupWord, updateWord, hk]
      · simp [lookupWord, updateWord, hk] at h ⊢
        exact ih h

theorem lookupWord_updateWord_ne (m : List (String × Guesser)) (w w2 : String)
    (g : Guesser) (h : w2 ≠ w) :
    lookupWord (updateWord m w g) w2 = lookupWord m w2 := by
  induction m with
  | nil => simp [updateWord]
  | cons kv rest ih =>
      obtain ⟨k, v0⟩ := kv
      by_cases hk : k = w
      · subst hk
        have hk2 : ¬ (k = w2) := fun he => h he.symm
        simp [lookupWord, updateWord, if_neg hk2]
      · simp [lookupWord, updateWord, hk]
        by_cases hk2 : k = w2
        · simp [hk2]
        · simp [hk2]
          exact ih

/-- A shared concrete game used to instantiate witness theorems:
alice is connected and playing, bob is connected and has given up. -/
def gEx : CoopGame Nat :=
  ⟨[⟨"alice", some 0, false⟩, ⟨"bob", some 1, true⟩],
   [("cat", Guesser.NoOne), ("dog", Guesser.Player 0)]⟩

/-- C1: `attempt(p, w)` returns true and moves `w` from unclaimed
(`Guesser.NoOne`) to claimed-by-`p` exactly when `w` is present and
unclaimed; when `w` is absent, already claimed by some player, or
forfeited, it returns false and the whole session state is unchanged, so
a claimed word's claimant can never be overwritten. -/
theorem attempt_unclaimed_only (g : CoopGame T) (p : Nat) (w : String) :
    ((g.attempt p w).1 = true ↔ lookupWord g.words w = some Guesser.NoOne)
    ∧ ((g.attempt p w).1 = true →
        (g.attempt p w).2.players = g.players
        ∧ lookupWord (g.attempt p w).2.words w = some (Guesser.Player p)
        ∧ ∀ w2, w2 ≠ w →
            lookupWord (g.attempt p w).2.words w2 = lookupWord g.words w2)
    ∧ ((g.attempt p w).1 = false → (g.attempt p w).2 = g)
    ∧ (∀ q, lookupWord g.words w = some (Guesser.Player q) → g.attempt p w = (false, g))
    ∧ (lookupWord g.words w = some Guesser.Gaveup → g.attempt p w = (false, g))
    ∧ (lookupWord g.words w = none → g.attempt p w = (false, g)) := by
  cases hl : lookupWord g.words w with
  | none => simp [CoopGame.attempt, hl]
  | some v =>
      cases v with
      | NoOne =>
          refine ⟨by simp [CoopGame.attempt, hl], ?_, by simp [CoopGame.attempt, hl],
                  by simp [hl], by simp [hl], by simp [hl]⟩
          intro _
          refine ⟨by simp [CoopGame.attempt, hl], ?_, ?_⟩
          · simpa [CoopGame.attempt, hl] using
              lookupWord_updateWord_self g.words w (Guesser.Player p) Guesser.NoOne hl
          · intro w2 hne
            simpa [CoopGame.attempt, hl] using
              lookupWord_updateWord_ne g.words w w2 (Guesser.Player p) hne
      | Player q => simp [CoopGame.attempt, hl]
      | Gaveup => simp [CoopGame.attempt, hl]

/-- Witness for C1: concrete successful claim, failed re-claim of an
already-claimed word, and failed claim of an absent word. -/
theorem attempt_unclaimed_only_witness :
    ((gEx.attempt 1 "cat").2.players = gEx.players
      ∧ lookupWord (gEx.attempt 1 "cat").2.words "cat" = some (Guesser.Player 1)
      ∧ ∀ w2, w2 ≠ "cat" →
          lookupWord (gEx.attempt 1 "cat").2.words w2 = lookupWord gEx.words w2)
    ∧ gEx.attempt 1 "dog" = (false, gEx)
    ∧ gEx.attempt 1 "bird" = (false, gEx) :=
  ⟨(attempt_unclaimed_only gEx 1 "cat").2.1 (by decide),
   (attempt_unclaimed_only gEx 1 "dog").2.2.2.1 0 (by decide),
   (attempt_unclaimed_only gEx 1 "bird").2.2.2.2.2 (by decide)⟩

/-! ## Roster-scan lemmas for player_quit / player_giveup -/

theorem quitScan_from_allgiveup (ps : List (CoopPlayer T)) :
    quitScan ps QuitResult.AllGiveup =
      (if ps.all (fun q => q.did_quit || q.gaveup) then some QuitResult.AllGiveup
       else none) := by
  induction ps with
  | nil => simp [quitScan]
  | cons p rest ih =>
      cases hq : p.did_quit with
      | true => simp [quitScan, hq, ih]
      | false =>
          cases hg : p.gaveup with
          | true => simp [quitScan, hq, hg, ih]
          | false => simp [quitScan, hq, hg]

theorem quitScan_from_allquit (ps : List (CoopPlayer T)) :
    quitScan ps QuitResult.AllQuit =
      (if ps.all (fun q => q.did_quit) then some QuitResult.AllQuit
       else if ps.all (fun q => q.did_quit || q.gaveup) then some QuitResult.AllGiveup
       else none) := by
  induction ps with
  | nil => simp [quitScan]
  | cons p rest ih =>
      cases hq : p.did_quit with
      | true => simp [quitScan, hq, ih]
      | false =>
          cases hg : p.gaveup with
          | true => simp [quitScan, hq, hg, quitScan_from_allgiveup]
          | false => simp [quitScan, hq, hg]

theorem all_quit_imp_allgiveup (ps : List (CoopPlayer T))
    (h : ps.all (fun q => q.did_quit) = true) :
    ps.all (fun q => q.did_quit || q.gaveup) = true := by
  simp only [List.all_eq_true] at h ⊢
  intro q hq
  simp [h q hq]

theorem lookupWord_allgiveupWords (m : List (String × Guesser)) (w : String) :
    lookupWord (allgiveupWords m) w =
      (match lookupWord m w with
       | some Guesser.NoOne => some Guesser.Gaveup
       | x => x) := by
  induction m with
  | nil => simp [allgiveupWords, lookupWord]
  | cons kv rest ih =>
      obtain ⟨k, v⟩ := kv
      by_cases hk : k = w
      · cases v <;> simp [allgiveupWords, lookupWord, hk]
      · cases v <;> simpa [allgiveupWords, lookupWord, hk] using ih

theorem allgiveupWords_eq_self (m : List (String × Guesser))
    (h : ∀ kv ∈ m, kv.2 ≠ Guesser.NoOne) :
    allgiveupWords m = m := by
  induction m with
  | nil => rfl
  | cons kv rest ih =>
      have h1 : kv.2 ≠ Guesser.NoOne := h kv (by simp)
      have ih2 := ih (fun kv2 hm => h kv2 (List.mem_cons_of_mem _ hm))
      simp only [allgiveupWords, List.map_cons] at ih2 ⊢
      rw [if_neg h1, ih2]

/-- A second shared concrete game: both alice and bob are connected and
both have given up. -/
def gEx2 : CoopGame Nat :=
  ⟨[⟨"alice", some 0, true⟩, ⟨"bob", some 1, true⟩],
   [("cat", Guesser.NoOne), ("dog", Guesser.Player 0)]⟩

/-- C2: for a valid index p, `player_quit p` clears p's channel and
give-up flag; then, on the cleared roster: if every player quit the
outcome is `AllQuit` with the word map untouched; else if every
still-connected player gave up the outcome is `AllGiveup` and every
unclaimed word is forfeited; else the outcome is `none` (continuing)
with the word map untouched. -/
theorem player_quit_spec (g : CoopGame T) (p : Nat) (h : p < g.players.length) :
    ∃ out g2, g.player_quit p = some (out, g2)
    ∧ g2.players = g.players.set p ⟨(g.players.get ⟨p, h⟩).name, none, false⟩
    ∧ (g2.players.all (fun q => q.did_quit) = true →
        out = some QuitResult.AllQuit ∧ g2.words = g.words)
    ∧ (g2.players.all (fun q => q.did_quit) = false →
       g2.players.all (fun q => q.did_quit || q.gaveup) = true →
        out = some QuitResult.AllGiveup
        ∧ g2.words = allgiveupWords g.words
        ∧ ∀ w, lookupWord g2.words w =
            (match lookupWord g.words w with
             | some Guesser.NoOne => some Guesser.Gaveup
             | x => x))
    ∧ (g2.players.all (fun q => q.did_quit || q.gaveup) = false →
        out = none ∧ g2.words = g.words) := by
  cases hq : (g.players.set p ⟨(g.players.get ⟨p, h⟩).name, none, false⟩).all
      (fun q => q.did_quit) with
  | true =>
      have hg := all_quit_imp_allgiveup _ hq
      refine ⟨some QuitResult.AllQuit,
        ⟨g.players.set p ⟨(g.players.get ⟨p, h⟩).name, none, false⟩,
         g.words⟩, ?_, rfl, fun _ => ⟨rfl, rfl⟩, ?_, ?_⟩
      · simp only [CoopGame.player_quit]
        rw [dif_pos h, quitScan_from_allquit, if_pos hq]
      · intro h1
        rw [hq] at h1
        cases h1
      · intro h1
        rw [hg] at h1
        cases h1
  | false =>
      cases hg : (g.players.set p ⟨(g.players.get ⟨p, h⟩).name, none, false⟩).all
          (fun q => q.did_quit || q.gaveup) with
      | true =>
          refine ⟨some QuitResult.AllGiveup,
            ⟨g.players.set p ⟨(g.players.get ⟨p, h⟩).name, none, false⟩,
             allgiveupWords g.words⟩, ?_, rfl, ?_, ?_, ?_⟩
          · simp only [CoopGame.player_quit]
            rw [dif_pos h, quitScan_from_allquit, if_neg (by rw [hq]; decide), if_pos hg]
          · intro h1
            rw [hq] at h1
            cases h1
          · intro _ _
            exact ⟨rfl, rfl, fun w => lookupWord_allgiveupWords g.words w⟩
          · intro h1
            rw [hg] at h1
            cases h1
      | false =>
          refine ⟨none,
            ⟨g.players.set p ⟨(g.players.get ⟨p, h⟩).name, none, false⟩,
             g.words⟩, ?_, rfl, ?_, ?_, fun _ => ⟨rfl, rfl⟩⟩
          · simp only [CoopGame.player_quit]
            rw [dif_pos h, quitScan_from_allquit, if_neg (by rw [hq]; decide),
                if_neg (by rw [hg]; decide)]
          · intro h1
            rw [hq] at h1
            cases h1
          · intro _ h2
            rw [hg] at h2
            cases h2

/-- Witness for C2: bob, who had given up, disconnects while alice (the
one remaining connected player) has given up; the outcome is `AllGiveup`
and the unclaimed word "cat" is forfeited. -/
theorem player_quit_spec_witness :
    1 < gEx2.players.length ∧
    gEx2.player_quit 1 = some (some QuitResult.AllGiveup,
      ⟨[⟨"alice", some 0, true⟩, ⟨"bob", none, false⟩],
       [("cat", Guesser.Gaveup), ("dog", Guesser.Player 0)]⟩) := by
  refine ⟨by decide, ?_⟩
  obtain ⟨out, g2, heq, hps, _, hallg, _⟩ := player_quit_spec gEx2 1 (by decide)
  obtain ⟨hout, hwords, _⟩ := hallg (by rw [hps]; decide) (by rw [hps]; decide)
  obtain ⟨ps2, ws2⟩ := g2
  simp only at hps hwords
  rw [heq, hout, hps, hwords]
  decide

/-- C3: for a valid index p, `player_giveup p` sets p's give-up flag;
if afterwards every player has given up or quit, every unclaimed word is
forfeited and the call returns true, otherwise it returns false and the
word map is untouched; when no word is unclaimed the word map is
untouched either way (the forfeiture is idempotent). -/
theorem player_giveup_spec (g : CoopGame T) (p : Nat) (h : p < g.players.length) :
    ∃ b g2, g.player_giveup p = some (b, g2)
    ∧ g2.players = g.players.set p
        ⟨(g.players.get ⟨p, h⟩).name, (g.players.get ⟨p, h⟩).send, true⟩
    ∧ (g2.players.all (fun q => q.gaveup || q.did_quit) = true →
        b = true ∧ g2.words = allgiveupWords g.words
        ∧ ∀ w, lookupWord g2.words w =
            (match lookupWord g.words w with
             | some Guesser.NoOne => some Guesser.Gaveup
             | x => x))
    ∧ (g2.players.all (fun q => q.gaveup || q.did_quit) = false →
        b = false ∧ g2.words = g.words)
    ∧ ((∀ kv ∈ g.words, kv.2 ≠ Guesser.NoOne) → g2.words = g.words) := by
  cases hb : (g.players.set p
      ⟨(g.players.get ⟨p, h⟩).name, (g.players.get ⟨p, h⟩).send, true⟩).all
      (fun q => q.gaveup || q.did_quit) with
  | true =>
      refine ⟨true,
        ⟨g.players.set p
           ⟨(g.players.get ⟨p, h⟩).name, (g.players.get ⟨p, h⟩).send, true⟩,
         allgiveupWords g.words⟩, ?_, rfl, ?_, ?_, ?_⟩
      · simp only [CoopGame.player_giveup]
        rw [dif_pos h, if_pos hb]
      · intro _
        exact ⟨rfl, rfl, fun w => lookupWord_allgiveupWords g.words w⟩
      · intro h1
        rw [hb] at h1
        cases h1
      · intro hno
        exact allgiveupWords_eq_self g.words hno
  | false =>
      refine ⟨false,
        ⟨g.players.set p
           ⟨(g.players.get ⟨p, h⟩).name, (g.players.get ⟨p, h⟩).send, true⟩,
         g.words⟩, ?_, rfl, ?_, fun _ => ⟨rfl, rfl⟩, fun _ => rfl⟩
      · simp only [CoopGame.player_giveup]
        rw [dif_pos h, if_neg (by rw [hb]; decide)]
      · intro h1
        rw [hb] at h1
        cases h1

/-- Witness for C3: alice gives up while bob has already given up, both
connected: the call reports all-gave-up and "cat" is forfeited; a
further give-up on the resulting state changes no word. -/
theorem player_giveup_spec_witness :
    0 < gEx.players.length ∧
    gEx.player_giveup 0 = some (true,
      ⟨[⟨"alice", some 0, true⟩, ⟨"bob", some 1, true⟩],
       [("cat", Guesser.Gaveup), ("dog", Guesser.Player 0)]⟩)
    ∧ (∃ b2 g3,
        (CoopGame.mk [⟨"alice", (some 0 : Option Nat), true⟩, ⟨"bob", some 1, true⟩]
          [("cat", Guesser.Gaveup), ("dog", Guesser.Player 0)]).player_giveup 1
          = some (b2, g3)
        ∧ g3.words = [("cat", Guesser.Gaveup), ("dog", Guesser.Player 0)]) := by
  refine ⟨by decide, ?_, ?_⟩
  · obtain ⟨b, g2, heq, hps, hall, _, _⟩ := player_giveup_spec gEx 0 (by decide)
    obtain ⟨hb, hwords, _⟩ := hall (by rw [hps]; decide)
    obtain ⟨ps2, ws2⟩ := g2
    simp only at hps hwords
    rw [heq, hb, hps, hwords]
    decide
  · obtain ⟨b, g2, heq, hps, _, _, hidem⟩ :=
      player_giveup_spec
        (CoopGame.mk [⟨"alice", (some 0 : Option Nat), true⟩, ⟨"bob", some 1, true⟩]
          [("cat", Guesser.Gaveup), ("dog", Guesser.Player 0)]) 1 (by decide)
    exact ⟨b, g2, heq, hidem (by decide)⟩

/-! ## try_join lemmas and the quit/rejoin round trip -/

theorem get?_set_self {α : Type} (l : List α) (i : Nat) (a : α) (h : i < l.length) :
    (l.set i a).get? i = some a := by
  induction l generalizing i with
  | nil => simp at h
  | cons x rest ih =>
      cases i with
      | zero => rfl
      | succ i2 =>
          simp only [List.set, List.get?]
          exact ih i2 (Nat.lt_of_succ_lt_succ h)

theorem get?_set_other {α : Type} (l : List α) (i j : Nat) (a : α) (h : i ≠ j) :
    (l.set i a).get? j = l.get? j := by
  induction l generalizing i j with
  | nil => simp
  | cons x rest ih =>
      cases i with
      | zero =>
          cases j with
          | zero => exact absurd rfl h
          | succ j2 => rfl
      | succ i2 =>
          cases j with
          | zero => rfl
          | succ j2 =>
              simp only [List.set, List.get?]
              exact ih i2 j2 (fun he => h (by rw [he]))

theorem tryJoinScan_reinstate (nm : String) (c : T) (ps : List (CoopPlayer T)) :
    ∀ (i n : Nat) (pl : CoopPlayer T),
      ps.get? i = some pl → pl.name = nm → pl.send = none →
      (∀ j, j < i → ∀ pl2, ps.get? j = some pl2 → pl2.name ≠ nm) →
      tryJoinScan nm c ps n =
        some (JoinResult.Ok (n + i), ps.set i ⟨pl.name, some c, pl.gaveup⟩) := by
  induction ps with
  | nil => intro i n pl hget; simp [List.get?] at hget
  | cons p rest ih =>
      intro i n pl hget hname hsend huniq
      cases i with
      | zero =>
          have hp : p = pl := by simpa [List.get?] using hget
          subst hp
          have hq : p.did_quit = true := by simp [CoopPlayer.did_quit, hsend]
          simp [tryJoinScan, hname, hq, List.set]
      | succ i2 =>
          have hne : p.name ≠ nm := huniq 0 (Nat.succ_pos i2) p rfl
          have hrec := ih i2 (n + 1) pl (by simpa [List.get?] using hget) hname hsend
            (fun j hj pl2 hpl2 => huniq (j + 1) (Nat.succ_lt_succ hj) pl2
              (by simpa [List.get?] using hpl2))
          simp only [tryJoinScan, if_neg hne, hrec]
          have harith : n + 1 + i2 = n + (i2 + 1) := by omega
          simp [harith, List.set]

/-- The roster after `player_quit` succeeds: the indexed player with
channel and give-up flag cleared (shared helper). -/
theorem player_quit_players (g : CoopGame T) (i : Nat) (h : i < g.players.length) :
    ∃ out g2, g.player_quit i = some (out, g2)
    ∧ g2.players = g.players.set i ⟨(g.players.get ⟨i, h⟩).name, none, false⟩ := by
  simp only [CoopGame.player_quit]
  rw [dif_pos h]
  cases hscan : quitScan
      (g.players.set i ⟨(g.players.get ⟨i, h⟩).name, none, false⟩)
      QuitResult.AllQuit with
  | none => exact ⟨none, _, rfl, rfl⟩
  | some r =>
      cases r with
      | AllGiveup => exact ⟨some QuitResult.AllGiveup, _, rfl, rfl⟩
      | AllQuit => exact ⟨some QuitResult.AllQuit, _, rfl, rfl⟩

/-- C4: a participant at a valid index i (with a name no earlier
participant shares) who quits and then rejoins under that same name
while their channel is still cleared is reinstated at the same index i:
no roster entry is appended and the reinstated participant has the
give-up flag false, whatever it was before the quit. -/
theorem quit_rejoin_same_index (g : CoopGame T) (i : Nat) (nm : String) (c2 : T)
    (h : i < g.players.length)
    (hname : (g.players.get ⟨i, h⟩).name = nm)
    (huniq : ∀ j, j < i → ∀ pl2, g.players.get? j = some pl2 → pl2.name ≠ nm) :
    ∃ out g2, g.player_quit i = some (out, g2)
    ∧ (g2.try_join nm c2).1 = JoinResult.Ok i
    ∧ (g2.try_join nm c2).2.players.length = g.players.length
    ∧ (g2.try_join nm c2).2.players.get? i = some ⟨nm, some c2, false⟩ := by
  obtain ⟨out, g2, heq, hps⟩ := player_quit_players g i h
  refine ⟨out, g2, heq, ?_⟩
  have hlen : g2.players.length = g.players.length := by
    rw [hps, List.length_set]
  have hget : g2.players.get? i = some ⟨(g.players.get ⟨i, h⟩).name, none, false⟩ := by
    rw [hps]
    exact get?_set_self g.players i _ h
  have huniq2 : ∀ j, j < i → ∀ pl2, g2.players.get? j = some pl2 → pl2.name ≠ nm := by
    intro j hj pl2 hpl2
    rw [hps, get?_set_other g.players i j _ (fun he => absurd hj (by rw [he]; omega))]
      at hpl2
    exact huniq j hj pl2 hpl2
  have hscan := tryJoinScan_reinstate nm c2 g2.players i 0
    ⟨(g.players.get ⟨i, h⟩).name, none, false⟩ hget hname rfl huniq2
  simp only [CoopGame.try_join, hscan, Nat.zero_add]
  refine ⟨trivial, ?_, ?_⟩
  · simp [List.length_set, hlen]
  · rw [get?_set_self _ i _ (by rw [hlen]; exact h)]
    exact congrArg some (by rw [← hname])

/-- Witness for C4: bob (index 1, give-up flag set) quits, then rejoins
as "bob" with a fresh channel and is reinstated at index 1 with the
give-up flag false. -/
theorem quit_rejoin_same_index_witness :
    1 < gEx2.players.length ∧
    (∃ out g2, gEx2.player_quit 1 = some (out, g2)
      ∧ (g2.try_join "bob" (7 : Nat)).1 = JoinResult.Ok 1
      ∧ (g2.try_join "bob" 7).2.players.length = gEx2.players.length
      ∧ (g2.try_join "bob" 7).2.players.get? 1 = some ⟨"bob", some 7, false⟩) := by
  refine ⟨by decide, ?_⟩
  refine quit_rejoin_same_index gEx2 1 "bob" 7 (by decide) (by decide) ?_
  intro j hj pl2 hpl2
  have hj0 : j = 0 := Nat.lt_one_iff.mp hj
  subst hj0
  have : pl2 = ⟨"alice", some 0, true⟩ := by
    simpa [gEx2, List.get?] using hpl2.symm
  subst this
  decide

/-! ## Host word-list lemmas -/

theorem wordRegexMatch_iff (w : List Char) :
    wordRegexMatch w = true ↔
      ∃ pre a b c post, w = pre ++ a :: b :: c :: post
        ∧ isLowerAZ a = true ∧ isLowerAZ b = true ∧ isLowerAZ c = true := by
  induction w with
  | nil =>
      constructor
      · intro h
        simp [wordRegexMatch] at h
      · rintro ⟨pre, a, b, c, post, heq, -, -, -⟩
        have hlen := congrArg List.length heq
        simp [List.length_append] at hlen
        omega
  | cons x tail ih =>
      cases tail with
      | nil =>
          constructor
          · intro h
            simp [wordRegexMatch] at h
          · rintro ⟨pre, a, b, c, post, heq, -, -, -⟩
            have hlen := congrArg List.length heq
            simp [List.length_append] at hlen
            omega
      | cons y tail2 =>
          cases tail2 with
          | nil =>
              constructor
              · intro h
                simp [wordRegexMatch] at h
              · rintro ⟨pre, a, b, c, post, heq, -, -, -⟩
                have hlen := congrArg List.length heq
                simp [List.length_append] at hlen
                omega
          | cons z rest =>
              constructor
              · intro h
                simp only [wordRegexMatch, Bool.or_eq_true, Bool.and_eq_true] at h
                cases h with
                | inl h3 => exact ⟨[], x, y, z, rest, rfl, h3.1.1, h3.1.2, h3.2⟩
                | inr h3 =>
                    obtain ⟨pre, a, b, c, post, heq, ha, hb, hc⟩ := ih.mp h3
                    exact ⟨x :: pre, a, b, c, post, by simp [heq], ha, hb, hc⟩
              · rintro ⟨pre, a, b, c, post, heq, ha, hb, hc⟩
                cases pre with
                | nil =>
                    simp only [List.nil_append, List.cons.injEq] at heq
                    obtain ⟨hx, hy, hz, -⟩ := heq
                    subst hx
                    subst hy
                    subst hz
                    simp [wordRegexMatch, ha, hb, hc]
                | cons p pre2 =>
                    simp only [List.cons_append, List.cons.injEq] at heq
                    obtain ⟨-, heq2⟩ := heq
                    have : wordRegexMatch (y :: z :: rest) = true :=
                      ih.mpr ⟨pre2, a, b, c, post, heq2, ha, hb, hc⟩
                    simp [wordRegexMatch, this]

theorem lookupWord_append_self (m : List (String × Guesser)) (w : String)
    (v : Guesser) (h : lookupWord m w = none) :
    lookupWord (m ++ [(w, v)]) w = some v := by
  induction m with
  | nil => simp [lookupWord]
  | cons kv rest ih =>
      obtain ⟨k, v0⟩ := kv
      by_cases hk : k = w
      · simp [lookupWord, hk] at h
      · simp [lookupWord, hk] at h ⊢
        exact ih h

theorem lookupWord_insertWord_self (m : List (String × Guesser)) (w : String)
    (v : Guesser) : lookupWord (insertWord m w v) w = some v := by
  unfold insertWord
  cases hl : lookupWord m w with
  | none => simp [hl, lookupWord_append_self m w v hl]
  | some v0 =>
      simp [hl]
      exact lookupWord_updateWord_self m w v v0 hl

/-- C5 (amended): `host_coop` accepts a token exactly when the token
contains three consecutive lowercase letters somewhere (the validation
regex is unanchored, so nothing constrains the rest of the token); only
tokens with no such run make the connection attempt fail. -/
theorem host_token_accept_iff (m : List (String × Guesser)) (w : List Char) :
    (hostProcessWord m w).isSome = true ↔
      ∃ pre a b c post, w = pre ++ a :: b :: c :: post
        ∧ isLowerAZ a = true ∧ isLowerAZ b = true ∧ isLowerAZ c = true := by
  rw [← wordRegexMatch_iff]
  cases hm : wordRegexMatch w
  · simp [hostProcessWord, hm]
  · simp only [hostProcessWord]
    rw [if_pos hm]
    exact iff_of_true (by split <;> rfl) (by trivial)

/-- C5 counterexample: the token "Xcat" violates the claimed whole-token
grammar (uppercase letter, length-4 core), yet `host_coop` admits it
into the word map instead of failing the connection. -/
theorem host_token_accept_cex :
    specTokenOk ['X', 'c', 'a', 't'] = false
    ∧ hostProcessWord [] ['X', 'c', 'a', 't'] =
        some [(String.mk ['X', 'c', 'a', 't'], Guesser.NoOne)] := by
  decide

/-- C7 counterexample: the marked token "cat_" is registered as
`Guesser.Player 0`, i.e. claimed by the host participant at index 0 —
not as a state outside the claimed-by family. -/
theorem marked_word_cex :
    hostProcessWord [] ['c', 'a', 't', '_'] =
      some [(String.mk ['c', 'a', 't'], Guesser.Player 0)] := by
  decide

/-- C7 (amended): an accepted token carrying the trailing underscore
marker is registered, with the marker stripped, as claimed by
participant 0 (the host); an accepted unmarked token is registered
unclaimed (`Guesser.NoOne`). -/
theorem marked_word_registration (m : List (String × Guesser)) (w : List Char)
    (hm : wordRegexMatch w = true) :
    (w.getLast? = some '_' →
        hostProcessWord m w =
          some (insertWord m (String.mk w.dropLast) (Guesser.Player 0))
        ∧ lookupWord (insertWord m (String.mk w.dropLast) (Guesser.Player 0))
            (String.mk w.dropLast) = some (Guesser.Player 0))
    ∧ (w.getLast? ≠ some '_' →
        hostProcessWord m w = some (insertWord m (String.mk w) Guesser.NoOne)
        ∧ lookupWord (insertWord m (String.mk w) Guesser.NoOne) (String.mk w)
            = some Guesser.NoOne) := by
  constructor
  · intro hl
    exact ⟨by simp [hostProcessWord, hm, hl], lookupWord_insertWord_self _ _ _⟩
  · intro hl
    exact ⟨by simp [hostProcessWord, hm, hl], lookupWord_insertWord_self _ _ _⟩

/-- Witness for C7: the marked token "cat_" and the unmarked token
"dog". -/
theorem marked_word_registration_witness :
    wordRegexMatch ['c', 'a', 't', '_'] = true
    ∧ lookupWord (insertWord [] (String.mk (['c', 'a', 't', '_'] : List Char).dropLast)
        (Guesser.Player 0)) (String.mk (['c', 'a', 't', '_'] : List Char).dropLast)
        = some (Guesser.Player 0)
    ∧ lookupWord (insertWord [] (String.mk ['d', 'o', 'g']) Guesser.NoOne)
        (String.mk ['d', 'o', 'g']) = some Guesser.NoOne :=
  ⟨by decide,
   ((marked_word_registration [] ['c', 'a', 't', '_'] (by decide)).1 (by decide)).2,
   ((marked_word_registration [] ['d', 'o', 'g'] (by decide)).2 (by decide)).2⟩

theorem updateWord_length (m : List (String × Guesser)) (w : String) (v : Guesser) :
    (updateWord m w v).length = m.length := by
  induction m with
  | nil => rfl
  | cons kv rest ih =>
      obtain ⟨k, v0⟩ := kv
      by_cases hk : k = w <;> simp [updateWord, hk, ih]

theorem insertWord_length (m : List (String × Guesser)) (w : String) (v : Guesser) :
    (insertWord m w v).length ≤ m.length + 1 := by
  unfold insertWord
  cases hl : (lookupWord m w).isSome <;> simp [updateWord_length]

theorem hostProcessWord_length (m m2 : List (String × Guesser)) (w : List Char)
    (h : hostProcessWord m w = some m2) : m2.length ≤ m.length + 1 := by
  unfold hostProcessWord at h
  by_cases hm : wordRegexMatch w = true
  · rw [if_pos hm] at h
    by_cases hl : w.getLast? = some '_'
    · rw [if_pos hl] at h
      cases h
      exact insertWord_length _ _ _
    · rw [if_neg hl] at h
      cases h
      exact insertWord_length _ _ _
  · rw [if_neg hm] at h
    cases h

theorem hostProcessWords_length (ts : List (List Char)) :
    ∀ m0 m, hostProcessWords ts m0 = some m → m.length ≤ m0.length + ts.length := by
  induction ts with
  | nil =>
      intro m0 m h
      cases h
      simp
  | cons w rest ih =>
      intro m0 m h
      unfold hostProcessWords at h
      cases hw : hostProcessWord m0 w with
      | none => rw [hw] at h; cases h
      | some m1 =>
          rw [hw] at h
          have h1 := hostProcessWord_length m0 m1 w hw
          have h2 := ih m1 m h
          simp only [List.length_cons]
          omega

theorem take_append_left {α : Type} (l1 l2 : List α) (n : Nat) (h : n ≤ l1.length) :
    (l1 ++ l2).take n = l1.take n := by
  induction l1 generalizing n with
  | nil =>
      have : n = 0 := by simpa using h
      simp [this]
  | cons x rest ih =>
      cases n with
      | zero => simp
      | succ n2 =>
          simp only [List.cons_append, List.take]
          exact congrArg (fun t => x :: t) (ih n2 (by simpa using h))

/-- C10: `host_coop` only ever processes the first 75 space-separated
tokens: the built word map has at most 75 entries, and tokens past the
75th are ignored entirely — appending anything (even grammar-violating
tokens) after a 75-token list changes nothing and cannot fail the
connection. -/
theorem host_take75_spec (ts : List (List Char)) :
    hostFromTokens ts = hostFromTokens (ts.take 75)
    ∧ (∀ m, hostFromTokens ts = some m → m.length ≤ 75)
    ∧ (ts.length = 75 → ∀ extra, hostFromTokens (ts ++ extra) = hostFromTokens ts) := by
  refine ⟨?_, ?_, ?_⟩
  · unfold hostFromTokens
    simp [List.take_take]
  · intro m h
    have := hostProcessWords_length (ts.take 75) [] m h
    have hlen : (ts.take 75).length ≤ 75 := by
      simp [List.length_take]
    simp at this
    omega
  · intro h75 extra
    unfold hostFromTokens
    rw [take_append_left ts extra 75 (by omega)]

set_option maxRecDepth 8192 in
/-- Witness for C10: 75 copies of the valid token "cat" followed by the
grammar-violating token "!" build the same (singleton, hence at most
75-entry) word map as the 75 tokens alone — the bad 76th token neither
fails the connection nor enters the map. -/
theorem host_take75_spec_witness :
    (([(String.mk ['c', 'a', 't'], Guesser.NoOne)] :
        List (String × Guesser)).length ≤ 75)
    ∧ hostFromTokens (List.replicate 75 ['c', 'a', 't'] ++ [['!']])
        = hostFromTokens (List.replicate 75 ['c', 'a', 't']) :=
  ⟨(host_take75_spec (List.replicate 75 ['c', 'a', 't'])).2.1 _ (by decide),
   (host_take75_spec (List.replicate 75 ['c', 'a', 't'])).2.2 (by simp) [['!']]⟩

/-! ## Broadcast fan-out lemmas -/

theorem mem_announceRecipAux_ne (e : Option Nat) (ps : List (CoopPlayer T)) :
    ∀ k n, n ∈ announceRecipAux e ps k → some n ≠ e := by
  induction ps with
  | nil => intro k n h; simp [announceRecipAux] at h
  | cons p rest ih =>
      intro k n h
      simp only [announceRecipAux] at h
      by_cases hk : (some k : Option Nat) ≠ e
      · rw [if_pos hk] at h
        by_cases hs : p.send.isSome = true
        · rw [if_pos hs] at h
          rcases List.mem_cons.mp h with he | hm
          · subst he; exact hk
          · exact ih (k + 1) n hm
        · rw [if_neg hs] at h
          exact ih (k + 1) n h
      · rw [if_neg hk] at h
        exact ih (k + 1) n h

theorem mem_announceRecipAux_of (e : Option Nat) (ps : List (CoopPlayer T)) :
    ∀ k j p0, ps.get? j = some p0 → p0.send.isSome = true → some (k + j) ≠ e →
      (k + j) ∈ announceRecipAux e ps k := by
  induction ps with
  | nil => intro k j p0 h; simp [List.get?] at h
  | cons p rest ih =>
      intro k j p0 hget hsend hne
      cases j with
      | zero =>
          have hp : p = p0 := by simpa [List.get?] using hget
          subst hp
          simp only [announceRecipAux]
          rw [if_pos (by simpa using hne), if_pos hsend]
          simp
      | succ j2 =>
          have harith : k + (j2 + 1) = (k + 1) + j2 := by omega
          have hmem := ih (k + 1) j2 p0 (by simpa [List.get?] using hget) hsend
            (by rw [← harith]; exact hne)
          rw [harith]
          simp only [announceRecipAux]
          by_cases hk : (some k : Option Nat) ≠ e
          · rw [if_pos hk]
            by_cases hs : p.send.isSome = true
            · rw [if_pos hs]
              exact List.mem_cons_of_mem _ hmem
            · rw [if_neg hs]
              exact hmem
          · rw [if_neg hk]
            exact hmem

/-- The roster after `player_giveup` succeeds (shared helper). -/
theorem player_giveup_players (g : CoopGame T) (i : Nat) (h : i < g.players.length) :
    ∃ b g2, g.player_giveup i = some (b, g2)
    ∧ g2.players = g.players.set i
        ⟨(g.players.get ⟨i, h⟩).name, (g.players.get ⟨i, h⟩).send, true⟩ := by
  simp only [CoopGame.player_giveup]
  rw [dif_pos h]
  cases hall : (g.players.set i
      ⟨(g.players.get ⟨i, h⟩).name, (g.players.get ⟨i, h⟩).send, true⟩).all
      (fun q => q.gaveup || q.did_quit) with
  | true => exact ⟨true, _, rfl, rfl⟩
  | false => exact ⟨false, _, rfl, rfl⟩

/-- C6 counterexample: a single connected player gives up, triggering
all-gave-up; the all-gave-up notice is broadcast with no exclusion, so
its recipient set is exactly the originator (index 0) — the message is
echoed back to the connection whose command produced the state change. -/
theorem giveup_allgiveup_echo_cex :
    giveupBroadcasts (T := Nat) ⟨[⟨"alice", some 0, false⟩], [("cat", Guesser.NoOne)]⟩ 0
      = some [[], [0]]
    ∧ (0 : Nat) ∈ ([0] : List Nat) := by
  decide

/-- C6 (amended): every announcement invoked with the originating index
as exclusion — join, quit, attempt, the give-up and undo-give-up
announcements, chat — is never delivered to the originator; the
all-gave-up notice however is broadcast with no exclusion, so in the
give-up path a still-connected originator does receive it (the quit
path's originator does not receive it only because their channel was
already cleared). -/
theorem broadcast_exclusion_spec (g : CoopGame T) (pnum : Nat) (w : String) :
    pnum ∉ announceRecip g.players (some pnum)
    ∧ (∀ rs ∈ attemptBroadcasts g pnum w, pnum ∉ rs)
    ∧ (∀ bss, giveupBroadcasts g pnum = some bss →
        ∀ rs, bss.get? 0 = some rs → pnum ∉ rs)
    ∧ (∀ bss, ungiveupBroadcasts g pnum = some bss → ∀ rs ∈ bss, pnum ∉ rs)
    ∧ (∀ rs ∈ chatBroadcasts g pnum, pnum ∉ rs)
    ∧ (∀ rs ∈ joinBroadcasts g pnum, pnum ∉ rs)
    ∧ (∀ bss, disconnectBroadcasts g pnum = some bss →
        ∀ rs, bss.get? 0 = some rs → pnum ∉ rs)
    ∧ (∀ g2, g.player_giveup pnum = some (true, g2) →
        ∀ p0, g.players.get? pnum = some p0 → p0.send.isSome = true →
          giveupBroadcasts g pnum
            = some [announceRecip g.players (some pnum), announceRecip g2.players none]
          ∧ pnum ∈ announceRecip g2.players none) := by
  have hex : ∀ ps : List (CoopPlayer T), pnum ∉ announceRecip ps (some pnum) :=
    fun ps hmem => (mem_announceRecipAux_ne (some pnum) ps 0 pnum hmem) rfl
  refine ⟨hex g.players, ?_, ?_, ?_, ?_, ?_, ?_, ?_⟩
  · intro rs hrs
    unfold attemptBroadcasts at hrs
    cases hatt : g.attempt pnum w with
    | mk b g2 =>
        rw [hatt] at hrs
        cases b with
        | true =>
            rcases List.mem_singleton.mp hrs with he
            subst he
            exact hex g2.players
        | false => simp at hrs
  · intro bss hbss rs hrs
    unfold giveupBroadcasts at hbss
    cases hpg : g.player_giveup pnum with
    | none => rw [hpg] at hbss; cases hbss
    | some pr =>
        obtain ⟨b, g2⟩ := pr
        rw [hpg] at hbss
        cases b with
        | true =>
            cases hbss
            cases hrs
            exact hex g.players
        | false =>
            cases hbss
            cases hrs
            exact hex g.players
  · intro bss hbss rs hrs
    unfold ungiveupBroadcasts at hbss
    cases hpu : g.player_ungiveup pnum with
    | none => rw [hpu] at hbss; cases hbss
    | some g2 =>
        rw [hpu] at hbss
        cases hbss
        rcases List.mem_singleton.mp hrs with he
        subst he
        exact hex g.players
  · intro rs hrs
    rcases List.mem_singleton.mp hrs with he
    subst he
    exact hex g.players
  · intro rs hrs
    rcases List.mem_singleton.mp hrs with he
    subst he
    exact hex g.players
  · intro bss hbss rs hrs
    unfold disconnectBroadcasts at hbss
    cases hpq : g.player_quit pnum with
    | none => rw [hpq] at hbss; cases hbss
    | some pr =>
        obtain ⟨out, g2⟩ := pr
        rw [hpq] at hbss
        cases out with
        | none =>
            cases hbss
            cases hrs
            exact hex g.players
        | some r =>
            cases r with
            | AllGiveup =>
                cases hbss
                cases hrs
                exact hex g.players
            | AllQuit =>
                cases hbss
                cases hrs
                exact hex g.players
  · intro g2 hpg p0 hp0 hsend
    refine ⟨by simp [giveupBroadcasts, hpg], ?_⟩
    by_cases h : pnum < g.players.length
    · obtain ⟨b2, g3, heq, hps⟩ := player_giveup_players g pnum h
      rw [hpg] at heq
      cases heq
      have hgetq : g.players.get ⟨pnum, h⟩ = p0 := by
        rw [List.get?_eq_get h] at hp0
        exact Option.some.inj hp0
      have hget2 : g2.players.get? pnum =
          some ⟨(g.players.get ⟨pnum, h⟩).name, (g.players.get ⟨pnum, h⟩).send, true⟩ := by
        rw [hps]
        exact get?_set_self _ _ _ h
      have hsend2 : (g.players.get ⟨pnum, h⟩).send.isSome = true := by
        rw [hgetq]; exact hsend
      have := mem_announceRecipAux_of (T := T) none g2.players 0 pnum
        ⟨(g.players.get ⟨pnum, h⟩).name, (g.players.get ⟨pnum, h⟩).send, true⟩
        hget2 hsend2 (by simp)
      simpa using this
    · exfalso
      rw [CoopGame.player_giveup, dif_neg h] at hpg
      cases hpg

/-- Witness for C6: in a session whose only player is the connected
alice, her give-up triggers all-gave-up and she herself (index 0, the
originator) is among the recipients of the all-gave-up notice. -/
theorem broadcast_exclusion_spec_witness :
    giveupBroadcasts (T := Nat) ⟨[⟨"alice", some 0, false⟩], [("cat", Guesser.NoOne)]⟩ 0
      = some [announceRecip ([⟨"alice", some 0, false⟩] : List (CoopPlayer Nat)) (some 0),
              announceRecip ([⟨"alice", some 0, true⟩] : List (CoopPlayer Nat)) none]
    ∧ (0 : Nat) ∈ announceRecip ([⟨"alice", some 0, true⟩] : List (CoopPlayer Nat)) none :=
  (broadcast_exclusion_spec (T := Nat)
      ⟨[⟨"alice", some 0, false⟩], [("cat", Guesser.NoOne)]⟩ 0 "cat").2.2.2.2.2.2.2
    ⟨[⟨"alice", some 0, true⟩], [("cat", Guesser.Gaveup)]⟩ (by decide)
    ⟨"alice", some 0, false⟩ (by decide) (by decide)

/-! ## Roster monotonicity -/

theorem get?_append_left {α : Type} (l1 l2 : List α) (j : Nat) (h : j < l1.length) :
    (l1 ++ l2).get? j = l1.get? j := by
  induction l1 generalizing j with
  | nil => simp at h
  | cons x rest ih =>
      cases j with
      | zero => rfl
      | succ j2 =>
          simp only [List.cons_append, List.get?]
          exact ih j2 (Nat.lt_of_succ_lt_succ h)

theorem tryJoinScan_roster (nm : String) (c : T) (ps : List (CoopPlayer T)) :
    ∀ n r ps2, tryJoinScan nm c ps n = some (r, ps2) →
      ps2.length = ps.length
      ∧ ∀ j, (ps2.get? j).map CoopPlayer.name = (ps.get? j).map CoopPlayer.name := by
  induction ps with
  | nil => intro n r ps2 h; simp [tryJoinScan] at h
  | cons p rest ih =>
      intro n r ps2 h
      simp only [tryJoinScan] at h
      by_cases hn : p.name = nm
      · rw [if_pos hn] at h
        by_cases hq : p.did_quit = true
        · rw [if_pos hq] at h
          cases h
          refine ⟨by simp, ?_⟩
          intro j
          cases j with
          | zero => rfl
          | succ j2 => rfl
        · rw [if_neg hq] at h
          cases h
          exact ⟨rfl, fun j => rfl⟩
      · rw [if_neg hn] at h
        cases hscan : tryJoinScan nm c rest (n + 1) with
        | none => rw [hscan] at h; cases h
        | some pr =>
            obtain ⟨r2, rest2⟩ := pr
            rw [hscan] at h
            cases h
            obtain ⟨hlen, hnames⟩ := ih (n + 1) _ _ hscan
            refine ⟨by simp [hlen], ?_⟩
            intro j
            cases j with
            | zero => rfl
            | succ j2 => exact hnames j2

theorem get?_set_preserve_name (ps : List (CoopPlayer T)) (i j : Nat)
    (a : CoopPlayer T)
    (hname : ∀ h : i < ps.length, a.name = (ps.get ⟨i, h⟩).name) :
    ((ps.set i a).get? j).map CoopPlayer.name = (ps.get? j).map CoopPlayer.name := by
  by_cases hij : i = j
  · subst hij
    by_cases h : i < ps.length
    · rw [get?_set_self ps i a h, List.get?_eq_get h]
      simp [hname h]
    · have h1 : ps.get? i = none := List.get?_eq_none.mpr (by omega)
      have h2 : (ps.set i a).get? i = none := by
        refine List.get?_eq_none.mpr ?_
        rw [List.length_set]
        omega
      rw [h1, h2]
  · rw [get?_set_other ps i j a hij]

/-- C9: no session operation removes a roster entry or renames an
existing participant: `try_join` can only grow the roster (by
appending), `attempt` leaves it untouched, and the quit/give-up/undo
operations keep its length and every participant's name; consequently a
once-valid index stays in bounds with the same name, and on such an
index the three indexing operations cannot panic. -/
theorem roster_monotone_spec (g : CoopGame T) (i : Nat) (nm w : String) (c : T)
    (pl0 : CoopPlayer T) (ws : List (String × Guesser)) :
    ((CoopGame.new pl0 ws).players.get? 0 = some pl0)
    ∧ (g.players.length ≤ (g.try_join nm c).2.players.length
      ∧ ∀ j, j < g.players.length →
          ((g.try_join nm c).2.players.get? j).map CoopPlayer.name
            = (g.players.get? j).map CoopPlayer.name)
    ∧ (g.attempt i w).2.players = g.players
    ∧ (∀ out g2, g.player_quit i = some (out, g2) →
        g2.players.length = g.players.length
        ∧ ∀ j, (g2.players.get? j).map CoopPlayer.name
            = (g.players.get? j).map CoopPlayer.name)
    ∧ (∀ b g2, g.player_giveup i = some (b, g2) →
        g2.players.length = g.players.length
        ∧ ∀ j, (g2.players.get? j).map CoopPlayer.name
            = (g.players.get? j).map CoopPlayer.name)
    ∧ (∀ g2, g.player_ungiveup i = some g2 →
        g2.players.length = g.players.length
        ∧ ∀ j, (g2.players.get? j).map CoopPlayer.name
            = (g.players.get? j).map CoopPlayer.name)
    ∧ (i < g.players.length →
        (g.player_quit i).isSome = true ∧ (g.player_giveup i).isSome = true
        ∧ (g.player_ungiveup i).isSome = true) := by
  refine ⟨rfl, ?_, ?_, ?_, ?_, ?_, ?_⟩
  · unfold CoopGame.try_join
    cases hscan : tryJoinScan nm c g.players 0 with
    | some pr =>
        obtain ⟨r, ps2⟩ := pr
        obtain ⟨hlen, hnames⟩ := tryJoinScan_roster nm c g.players 0 r ps2 hscan
        exact ⟨by simp [hlen], fun j _ => hnames j⟩
    | none =>
        refine ⟨by simp, ?_⟩
        intro j hj
        simp only
        rw [get?_append_left g.players _ j hj]
  · unfold CoopGame.attempt
    cases hl : lookupWord g.words w with
    | none => rfl
    | some v => cases v <;> rfl
  · intro out g2 heq
    by_cases h : i < g.players.length
    · obtain ⟨out2, g3, heq2, hps⟩ := player_quit_players g i h
      rw [heq2] at heq
      cases heq
      rw [hps]
      refine ⟨List.length_set _ _ _, ?_⟩
      intro j
      exact get?_set_preserve_name g.players i j _ (fun h2 => rfl)
    · rw [CoopGame.player_quit, dif_neg h] at heq
      cases heq
  · intro b g2 heq
    by_cases h : i < g.players.length
    · obtain ⟨b2, g3, heq2, hps⟩ := player_giveup_players g i h
      rw [heq2] at heq
      cases heq
      rw [hps]
      refine ⟨List.length_set _ _ _, ?_⟩
      intro j
      exact get?_set_preserve_name g.players i j _ (fun h2 => rfl)
    · rw [CoopGame.player_giveup, dif_neg h] at heq
      cases heq
  · intro g2 heq
    by_cases h : i < g.players.length
    · rw [CoopGame.player_ungiveup, dif_pos h] at heq
      cases heq
      refine ⟨List.length_set _ _ _, ?_⟩
      intro j
      exact get?_set_preserve_name g.players i j _ (fun h2 => rfl)
    · rw [CoopGame.player_ungiveup, dif_neg h] at heq
      cases heq
  · intro h
    obtain ⟨out2, g3, heq2, -⟩ := player_quit_players g i h
    obtain ⟨b2, g4, heq3, -⟩ := player_giveup_players g i h
    refine ⟨by rw [heq2]; rfl, by rw [heq3]; rfl, ?_⟩
    rw [CoopGame.player_ungiveup, dif_pos h]
    rfl

/-- Witness for C9: the indexing operations on gEx at index 0 exist and
preserve the roster length. -/
theorem roster_monotone_spec_witness :
    ((⟨[⟨"alice", none, false⟩, ⟨"bob", some 1, true⟩],
       [("cat", Guesser.Gaveup), ("dog", Guesser.Player 0)]⟩ : CoopGame Nat).players.length
        = gEx.players.length)
    ∧ ((gEx.player_quit 0).isSome = true ∧ (gEx.player_giveup 0).isSome = true
        ∧ (gEx.player_ungiveup 0).isSome = true) :=
  ⟨((roster_monotone_spec gEx 0 "x" "cat" 5 ⟨"host", some 9, false⟩ []).2.2.2.1
      (some QuitResult.AllGiveup)
      ⟨[⟨"alice", none, false⟩, ⟨"bob", some 1, true⟩],
       [("cat", Guesser.Gaveup), ("dog", Guesser.Player 0)]⟩ (by decide)).1,
   (roster_monotone_spec gEx 0 "x" "cat" 5 ⟨"host", some 9, false⟩ []).2.2.2.2.2.2
     (by decide)⟩

end SLServer
